import Mathlib

/-!
Shallow embedding of the core of `lambda_function.py` (carrier-io/board_summary):
the ticket classifier `categorize_tickets` and the completion reconciler
`get_recent_done_tickets`, together with the timestamp parsing/formatting they
perform (`datetime.strptime` with format `"%Y-%m-%dT%H:%M:%S.%f"` and
`datetime.strftime` with format `"%Y-%m-%d %H:%M:%S"`).

Python dictionaries are modelled as structures.  Fields that the code reads
with `ticket["k"]` and that may be absent in a ticket dict are modelled as
`Option`; reading an absent key raises `KeyError`, modelled by `PyError.keyError`.
A `datetime.strptime` failure raises `ValueError`, modelled by
`PyError.valueError` carrying the offending string.  In-place mutation of the
shared ticket objects is modelled by threading the list of tickets as a store:
a ticket object is identified by its position in that list, and the reconciler
returns both the final store and the result list (whose elements are read off
the final store, as Python list entries alias the mutated dicts).
-/

/-- Python exceptions that the embedded code can raise. -/
inductive PyError where
  | keyError : String → PyError
  | valueError : String → PyError
deriving Repr, DecidableEq

instance {ε α : Type _} [DecidableEq ε] [DecidableEq α] : DecidableEq (Except ε α) := fun x y =>
  match x, y with
  | .error a, .error b =>
    if h : a = b then isTrue (by rw [h]) else isFalse (fun hc => h (by cases hc; rfl))
  | .error _, .ok _ => isFalse (fun hc => Except.noConfusion hc)
  | .ok _, .error _ => isFalse (fun hc => Except.noConfusion hc)
  | .ok a, .ok b =>
    if h : a = b then isTrue (by rw [h]) else isFalse (fun hc => h (by cases hc; rfl))

/-- A ticket record (`rows` element of the issues response).  The code reads
`id`, `type`, `status`, `start_date` and writes `completion_date`. -/
structure Ticket where
  id : Int
  type : Option String
  status : Option String
  start_date : Option String
  completion_date : Option String
deriving Repr, DecidableEq, Inhabited

/-- The `status` delta inside an audit-log `changes` mapping: Python reads
`changes.get("status", {}).get("new_value")`. -/
structure StatusDelta where
  old_value : Option String
  new_value : Option String
deriving Repr, DecidableEq

/-- The `changes` mapping of an audit-log entry.  Only the `"status"` key is
ever read; `extra` records whether the dict carries any further keys, which
matters solely for Python truthiness of `log["changes"]`. -/
structure Changes where
  status : Option StatusDelta
  extra : Bool
deriving Repr, DecidableEq

/-- Python truthiness of the `changes` dict: non-empty. -/
def Changes.isTruthy (c : Changes) : Bool := c.status.isSome || c.extra

/-- An audit-log entry (`rows` element of the audit-log response). -/
structure AuditLog where
  auditable_id : Int
  action : String
  changes : Changes
  created_at : String
deriving Repr, DecidableEq

/-! ### Timestamp parsing and formatting

`datetime.strptime(s, "%Y-%m-%dT%H:%M:%S.%f")`: `%Y` matches exactly four
digits; `%m`, `%d`, `%H`, `%M`, `%S` match one or two digits; `%f` matches one
to six digits (scaled to microseconds); literals must match exactly, the whole
string must be consumed, and the field values must form a valid datetime
(month 1-12, day within the month's length, hour 0-23, minute/second 0-59,
year at least 1). -/

/-- Greedily take up to `n` leading decimal digits. -/
def takeDigits : Nat → List Char → List Char × List Char
  | 0, cs => ([], cs)
  | _ + 1, [] => ([], [])
  | n + 1, c :: cs =>
    if c.isDigit then
      let (ds, rest) := takeDigits n cs
      (c :: ds, rest)
    else ([], c :: cs)

/-- Numeric value of a digit string. -/
def digitsVal (ds : List Char) : Nat := ds.foldl (fun a c => a * 10 + (c.toNat - 48)) 0

/-- Read at most `maxDigits` digits (at least one); returns value, digit count
and the remaining characters. -/
def parseNum (maxDigits : Nat) (cs : List Char) : Option (Nat × Nat × List Char) :=
  let (ds, rest) := takeDigits maxDigits cs
  if ds.isEmpty then none else some (digitsVal ds, ds.length, rest)

/-- Consume one expected literal character. -/
def expectChar (c : Char) : List Char → Option (List Char)
  | [] => none
  | d :: cs => if d = c then some cs else none

/-- The broken-down time produced by `strptime` (only the fields the format
uses). -/
structure PyDateTime where
  year : Nat
  month : Nat
  day : Nat
  hour : Nat
  minute : Nat
  second : Nat
  microsecond : Nat
deriving Repr, DecidableEq

/-- Gregorian leap-year rule used by `datetime`. -/
def isLeapYear (y : Nat) : Bool := y % 4 == 0 && (y % 100 != 0 || y % 400 == 0)

/-- Number of days in a month, as validated by the `datetime` constructor. -/
def daysInMonth (y m : Nat) : Nat :=
  if m = 2 then (if isLeapYear y then 29 else 28)
  else if m = 4 ∨ m = 6 ∨ m = 9 ∨ m = 11 then 30
  else 31

/-- Read a one-or-two-digit field. -/
def parseTwo (cs : List Char) : Option (Nat × List Char) :=
  match parseNum 2 cs with
  | none => none
  | some (v, _, rest) => some (v, rest)

/-- The `%Y-%m-%d` part of the format (`%Y` must match exactly four digits). -/
def parseYMD (cs : List Char) : Option (Nat × Nat × Nat × List Char) :=
  match parseNum 4 cs with
  | none => none
  | some (y, yn, cs1) =>
    if yn ≠ 4 then none else
    match expectChar '-' cs1 with
    | none => none
    | some cs2 =>
      match parseTwo cs2 with
      | none => none
      | some (mo, cs3) =>
        match expectChar '-' cs3 with
        | none => none
        | some cs4 =>
          match parseTwo cs4 with
          | none => none
          | some (d, cs5) => some (y, mo, d, cs5)

/-- The `%H:%M:%S` part of the format. -/
def parseHMS (cs : List Char) : Option (Nat × Nat × Nat × List Char) :=
  match parseTwo cs with
  | none => none
  | some (h, cs1) =>
    match expectChar ':' cs1 with
    | none => none
    | some cs2 =>
      match parseTwo cs2 with
      | none => none
      | some (mi, cs3) =>
        match expectChar ':' cs3 with
        | none => none
        | some cs4 =>
          match parseTwo cs4 with
          | none => none
          | some (sec, cs5) => some (h, mi, sec, cs5)

/-- `datetime.strptime(s, "%Y-%m-%dT%H:%M:%S.%f")`, returning `none` where
Python raises `ValueError`: shape match, full consumption of the input, and
the field-range validation performed by the `datetime` constructor. -/
def strptimeIso (s : String) : Option PyDateTime :=
  match parseYMD s.toList with
  | none => none
  | some (y, mo, d, cs1) =>
    match expectChar 'T' cs1 with
    | none => none
    | some cs2 =>
      match parseHMS cs2 with
      | none => none
      | some (h, mi, sec, cs3) =>
        match expectChar '.' cs3 with
        | none => none
        | some cs4 =>
          match parseNum 6 cs4 with
          | none => none
          | some (f, fn, cs5) =>
            if cs5.isEmpty ∧ 1 ≤ y ∧ 1 ≤ mo ∧ mo ≤ 12 ∧ 1 ≤ d ∧ d ≤ daysInMonth y mo ∧
                h ≤ 23 ∧ mi ≤ 59 ∧ sec ≤ 59 then
              some ⟨y, mo, d, h, mi, sec, f * 10 ^ (6 - fn)⟩
            else none

/-- Zero-pad a numeric field to two digits. -/
def pad2 (n : Nat) : String := if n < 10 then "0" ++ toString n else toString n

/-- `dt.strftime("%Y-%m-%d %H:%M:%S")`. -/
def strftimeHuman (dt : PyDateTime) : String :=
  toString dt.year ++ "-" ++ pad2 dt.month ++ "-" ++ pad2 dt.day ++ " " ++
    pad2 dt.hour ++ ":" ++ pad2 dt.minute ++ ":" ++ pad2 dt.second

/-! ### `categorize_tickets` -/

/-- The keys of the `tickets_summary` dict, in insertion order. -/
def statusKeys : List String := ["open", "blocked", "in_progress", "in_review", "done"]

/-- The `tickets_summary` dict: a fixed-key mapping from status to bucket. -/
structure TicketsSummary where
  open_ : List Ticket
  blocked : List Ticket
  in_progress : List Ticket
  in_review : List Ticket
  done : List Ticket
deriving Repr, DecidableEq, Inhabited

/-- Dict lookup `tickets_summary[k]` (total: unrecognized keys give `[]`,
which the code never consults). -/
def TicketsSummary.get (s : TicketsSummary) (k : String) : List Ticket :=
  if k = "open" then s.open_
  else if k = "blocked" then s.blocked
  else if k = "in_progress" then s.in_progress
  else if k = "in_review" then s.in_review
  else if k = "done" then s.done
  else []

/-- `tickets_summary[k].append(t)` for a recognized key. -/
def addToBucket (s : TicketsSummary) (k : String) (t : Ticket) : TicketsSummary :=
  if k = "open" then { s with open_ := s.open_ ++ [t] }
  else if k = "blocked" then { s with blocked := s.blocked ++ [t] }
  else if k = "in_progress" then { s with in_progress := s.in_progress ++ [t] }
  else if k = "in_review" then { s with in_review := s.in_review ++ [t] }
  else if k = "done" then { s with done := s.done ++ [t] }
  else s

/-- The summary dict as initialized, with five empty buckets. -/
def emptySummary : TicketsSummary := ⟨[], [], [], [], []⟩

/-- The classification loop of `categorize_tickets`: reads `ticket["type"]`
(raising `KeyError` when absent), routes `"Risk"` tickets to `risks`, otherwise
reads `ticket["status"]` (raising `KeyError` when absent) and appends to the
bucket when the status is a key of the summary dict, dropping the ticket
otherwise. -/
def categorizeLoop : List Ticket → TicketsSummary → List Ticket →
    Except PyError (TicketsSummary × List Ticket)
  | [], s, risks => .ok (s, risks)
  | t :: ts, s, risks =>
    match t.type with
    | none => .error (.keyError "type")
    | some ty =>
      if ty = "Risk" then categorizeLoop ts s (risks ++ [t])
      else
        match t.status with
        | none => .error (.keyError "status")
        | some st =>
          if st ∈ statusKeys then categorizeLoop ts (addToBucket s st t) risks
          else categorizeLoop ts s risks

/-- Sort key: `x.get("start_date", "")`. -/
def sortKey (t : Ticket) : String := t.start_date.getD ""

/-- Boolean comparison handed to the stable sort. -/
def tLe (a b : Ticket) : Bool := decide (sortKey a ≤ sortKey b)

/-- The post-loop step `sorted(tickets_list, key=lambda x: x.get("start_date", ""))`
applied to each bucket; Python's `sorted` is a stable ascending sort, which
`List.mergeSort` implements exactly. -/
def sortBuckets (s : TicketsSummary) : TicketsSummary :=
  ⟨s.open_.mergeSort tLe, s.blocked.mergeSort tLe, s.in_progress.mergeSort tLe,
    s.in_review.mergeSort tLe, s.done.mergeSort tLe⟩

/-- `categorize_tickets(tickets)`: classification loop, then per-bucket stable
sort; returns the summary dict and the risk list. -/
def categorize_tickets (tickets : List Ticket) :
    Except PyError (TicketsSummary × List Ticket) :=
  match categorizeLoop tickets emptySummary [] with
  | .error e => .error e
  | .ok (s, risks) => .ok (sortBuckets s, risks)

/-! ### `get_recent_done_tickets` -/

/-- The guard on line 155:
`log["action"] == "update" and log["changes"] and
 log["changes"].get("status", {}).get("new_value") == "DONE"`. -/
def qualifiesDone (l : AuditLog) : Bool :=
  l.action == "update" && l.changes.isTruthy &&
    (l.changes.status.bind StatusDelta.new_value == some "DONE")

/-- `ticket["completion_date"] = cd`. -/
def Ticket.setCompletion (t : Ticket) (cd : String) : Ticket :=
  { t with completion_date := some cd }

/-- The reconciliation loop, threading the ticket store.  For each qualifying
entry it finds the first ticket with matching id
(`next((t for t in tickets if t["id"] == ticket_id), None)`), parses
`created_at` (propagating the `ValueError` Python raises on failure),
sets `completion_date` on that shared ticket object in place and records the
object (by store index) in the output. -/
def reconcileAux : List AuditLog → List Ticket → List Nat →
    Except PyError (List Ticket × List Nat)
  | [], ts, acc => .ok (ts, acc)
  | log :: rest, ts, acc =>
    if qualifiesDone log then
      match ts.findIdx? (fun t => t.id == log.auditable_id) with
      | none => reconcileAux rest ts acc
      | some i =>
        match strptimeIso log.created_at with
        | none => .error (.valueError log.created_at)
        | some dt =>
          reconcileAux rest (ts.set i ((ts.getD i default).setCompletion (strftimeHuman dt)))
            (acc ++ [i])
    else reconcileAux rest ts acc

/-- `get_recent_done_tickets(audit_logs, tickets)`: returns the final ticket
store (the in-place-mutated `tickets` list) and `recent_done_tickets`, whose
elements alias the mutated ticket objects and are therefore read off the final
store. -/
def get_recent_done_tickets (audit_logs : List AuditLog) (tickets : List Ticket) :
    Except PyError (List Ticket × List Ticket) :=
  match reconcileAux audit_logs tickets [] with
  | .error e => .error e
  | .ok (ts, idxs) => .ok (ts, idxs.map fun i => ts.getD i default)

/-! ### Specification-side views used in the proofs -/

/-- `ticket["type"] == "Risk"`: the risk-classification test, as a predicate. -/
def riskPred (t : Ticket) : Bool := t.type == some "Risk"

/-- Membership test for the bucket of key `k`: a non-`Risk` ticket whose
status equals `k`. -/
def bucketPred (k : String) (t : Ticket) : Bool :=
  match t.type with
  | none => false
  | some ty => !(ty == "Risk") && (t.status == some k)

/-- Well-formedness that `categorize_tickets` needs to not raise: a `type`
field, and a `status` field on every non-`Risk` ticket. -/
def WfTicket (t : Ticket) : Prop :=
  t.type ≠ none ∧ (t.type ≠ some "Risk" → t.status ≠ none)

instance (t : Ticket) : Decidable (WfTicket t) := by
  unfold WfTicket; infer_instance

/-- The sequence of `completion_date` writes (store index, formatted date)
that the reconciliation loop performs, as a function of the logs and of the
ids of the ticket store.  `reconcileAux` is proved equal to computing these
writes and then applying them. -/
def computeWrites : List AuditLog → List Int → Except PyError (List (Nat × String))
  | [], _ => .ok []
  | log :: rest, ids =>
    if qualifiesDone log then
      match ids.findIdx? (fun x => x == log.auditable_id) with
      | none => computeWrites rest ids
      | some i =>
        match strptimeIso log.created_at with
        | none => .error (.valueError log.created_at)
        | some dt =>
          match computeWrites rest ids with
          | .error e => .error e
          | .ok ws => .ok ((i, strftimeHuman dt) :: ws)
    else computeWrites rest ids

/-- Apply one completion-date write to the store. -/
def applyWrite (ts : List Ticket) (w : Nat × String) : List Ticket :=
  ts.set w.1 ((ts.getD w.1 default).setCompletion w.2)

/-- Apply a sequence of writes left to right. -/
def applyWrites (ts : List Ticket) (ws : List (Nat × String)) : List Ticket :=
  ws.foldl applyWrite ts

/-- The last value written at store index `j`, if any. -/
def lastWrite : List (Nat × String) → Nat → Option String
  | [], _ => none
  | w :: rest, j =>
    match lastWrite rest j with
    | some cd => some cd
    | none => if w.1 = j then some w.2 else none

/-- The formatted completion date of a log entry (meaningful when its
`created_at` parses). -/
def fmtOf (l : AuditLog) : String :=
  match strptimeIso l.created_at with
  | some dt => strftimeHuman dt
  | none => ""

/-- The partition statement of the classifier: risk precedence, exactly one
bucket per recognized status, unrecognized non-risk tickets nowhere, and the
union of the outputs being exactly the risk-or-recognized input tickets. -/
def CategorizePartition (ts : List Ticket) (S : TicketsSummary) (R : List Ticket) : Prop :=
  (∀ t ∈ ts, t.type = some "Risk" → t ∈ R ∧ ∀ k ∈ statusKeys, t ∉ S.get k) ∧
  (∀ t ∈ ts, ∀ ty, t.type = some ty → ty ≠ "Risk" →
    ∀ k ∈ statusKeys, t.status = some k →
      t ∈ S.get k ∧ t ∉ R ∧ ∀ k' ∈ statusKeys, k' ≠ k → t ∉ S.get k') ∧
  (∀ t ∈ ts, ∀ ty, t.type = some ty → ty ≠ "Risk" →
    (∀ k ∈ statusKeys, t.status ≠ some k) → t ∉ R ∧ ∀ k ∈ statusKeys, t ∉ S.get k) ∧
  (∀ t, (t ∈ R ∨ ∃ k ∈ statusKeys, t ∈ S.get k) ↔
    (t ∈ ts ∧ (t.type = some "Risk" ∨
      (t.type ≠ some "Risk" ∧ ∃ k ∈ statusKeys, t.status = some k))))

/-! ### Concrete inputs used in scenarios, witnesses and counterexamples -/

/-- Scenario ticket 58 from the spec's test data. -/
def t58 : Ticket := ⟨58, some "Activity", some "in_progress", some "2024-11-28", none⟩

/-- Scenario ticket 59 from the spec's test data. -/
def t59 : Ticket := ⟨59, some "Activity", some "done", some "2024-11-28", none⟩

/-- Ticket 59 after reconciliation annotated it. -/
def t59done : Ticket :=
  ⟨59, some "Activity", some "done", some "2024-11-28", some "2024-11-20 10:00:00"⟩

/-- The scenario audit-log entry marking ticket 59 done. -/
def log59 : AuditLog := ⟨59, "update", ⟨some ⟨none, some "DONE"⟩, false⟩, "2024-11-20T10:00:00.0"⟩

/-- A qualifying entry for ticket 58 whose `created_at` does not parse. -/
def logBad : AuditLog := ⟨58, "update", ⟨some ⟨none, some "DONE"⟩, false⟩, "2024-11-20 10:00:00"⟩

/-- A risk ticket carrying no `status` field. -/
def riskNoStatus : Ticket := ⟨7, some "Risk", none, none, none⟩

/-- A non-risk ticket carrying no `status` field. -/
def activityNoStatus : Ticket := ⟨8, some "Activity", none, none, none⟩

/-- A ticket carrying no `type` field. -/
def noType : Ticket := ⟨9, none, some "open", none, none⟩

/-! ## Store lemmas for the reconciler's write factoring -/

theorem set_of_getElem? {α : Type _} (l : List α) (i : Nat) (a : α) (h : l[i]? = some a) :
    l.set i a = l := by
  apply List.ext_getElem?
  intro n
  rw [List.getElem?_set]
  split
  · next hin =>
    subst hin
    have hi : i < l.length := by
      by_contra hc
      rw [List.getElem?_eq_none (Nat.le_of_not_lt hc)] at h
      exact Option.noConfusion h
    simp [hi, h]
  · rfl

theorem setCompletion_id (t : Ticket) (cd : String) : (t.setCompletion cd).id = t.id := rfl

theorem applyWrite_map_id (ts : List Ticket) (w : Nat × String) :
    (applyWrite ts w).map Ticket.id = ts.map Ticket.id := by
  unfold applyWrite
  rw [List.map_set]
  by_cases hw : w.1 < ts.length
  · apply set_of_getElem?
    simp [List.getElem?_map, List.getElem?_eq_getElem hw, Ticket.setCompletion,
      List.getD_eq_getElem?_getD]
  · rw [List.set_eq_of_length_le (by simpa using Nat.le_of_not_lt hw)]

theorem applyWrites_nil (ts : List Ticket) : applyWrites ts [] = ts := rfl

theorem applyWrites_cons (ts : List Ticket) (w : Nat × String) (ws : List (Nat × String)) :
    applyWrites ts (w :: ws) = applyWrites (applyWrite ts w) ws := rfl

theorem applyWrites_map_id (ts : List Ticket) (ws : List (Nat × String)) :
    (applyWrites ts ws).map Ticket.id = ts.map Ticket.id := by
  induction ws generalizing ts with
  | nil => rfl
  | cons w ws ih => rw [applyWrites_cons, ih, applyWrite_map_id]

theorem applyWrites_length (ts : List Ticket) (ws : List (Nat × String)) :
    (applyWrites ts ws).length = ts.length := by
  have h := congrArg List.length (applyWrites_map_id ts ws)
  simpa using h

theorem getElem?_applyWrite (ts : List Ticket) (w : Nat × String) (j : Nat) :
    (applyWrite ts w)[j]? =
      if w.1 = j then (ts[j]?).map (·.setCompletion w.2) else ts[j]? := by
  unfold applyWrite
  by_cases hij : w.1 = j
  · subst hij
    by_cases hw : w.1 < ts.length
    · rw [List.getElem?_set_self hw]
      simp [List.getD_eq_getElem?_getD, List.getElem?_eq_getElem hw]
    · rw [List.set_eq_of_length_le (Nat.le_of_not_lt hw)]
      have hn : ts[w.1]? = none := List.getElem?_eq_none (Nat.le_of_not_lt hw)
      simp [hn]
  · rw [List.getElem?_set_ne hij]
    simp [hij]

theorem getElem?_applyWrites (ws : List (Nat × String)) (ts : List Ticket) (j : Nat) :
    (applyWrites ts ws)[j]? =
      match lastWrite ws j with
      | none => ts[j]?
      | some cd => (ts[j]?).map (·.setCompletion cd) := by
  induction ws generalizing ts with
  | nil => rfl
  | cons w ws ih =>
    rw [applyWrites_cons, ih]
    cases hlw : lastWrite ws j with
    | some cd =>
      simp only [lastWrite, hlw]
      rw [getElem?_applyWrite]
      by_cases hij : w.1 = j
      · simp only [hij, if_pos rfl]
        cases ts[j]? <;> rfl
      · simp [hij]
    | none =>
      simp only [lastWrite, hlw]
      rw [getElem?_applyWrite]
      by_cases hij : w.1 = j <;> simp [hij]

theorem applyWrites_idem (ts : List Ticket) (ws : List (Nat × String)) :
    applyWrites (applyWrites ts ws) ws = applyWrites ts ws := by
  apply List.ext_getElem?
  intro n
  rw [getElem?_applyWrites]
  cases hlw : lastWrite ws n with
  | none => rfl
  | some cd =>
    simp only
    rw [getElem?_applyWrites]
    simp only [hlw]
    cases ts[n]? <;> rfl

theorem lastWrite_mem (ws : List (Nat × String)) (j : Nat) (cd : String)
    (h : lastWrite ws j = some cd) : (j, cd) ∈ ws := by
  induction ws with
  | nil => exact Option.noConfusion h
  | cons w ws ih =>
    simp only [lastWrite] at h
    cases hlw : lastWrite ws j with
    | some cd2 =>
      rw [hlw] at h
      simp only [Option.some.injEq] at h
      subst h
      exact List.mem_cons_of_mem w (ih hlw)
    | none =>
      rw [hlw] at h
      by_cases hj : w.1 = j
      · rw [if_pos hj] at h
        simp only [Option.some.injEq] at h
        subst h
        subst hj
        exact List.mem_cons_self w ws
      · rw [if_neg hj] at h
        exact Option.noConfusion h

theorem lastWrite_isSome_of_mem (ws : List (Nat × String)) (j : Nat)
    (h : j ∈ ws.map Prod.fst) : ∃ cd, lastWrite ws j = some cd := by
  induction ws with
  | nil => simp at h
  | cons w ws ih =>
    simp only [lastWrite]
    cases hlw : lastWrite ws j with
    | some cd => exact ⟨cd, rfl⟩
    | none =>
      simp only [List.map_cons, List.mem_cons] at h
      rcases h with h | h
      · exact ⟨w.2, if_pos h.symm⟩
      · rcases ih h with ⟨cd, hcd⟩
        rw [hlw] at hcd
        exact Option.noConfusion hcd

/-! ## The reconciliation loop computes and applies the write sequence -/

theorem findIdx?_map_id (ts : List Ticket) (aid : Int) :
    (ts.map Ticket.id).findIdx? (fun x => x == aid) =
      ts.findIdx? (fun t => t.id == aid) := by
  rw [List.findIdx?_map]
  rfl

theorem reconcileAux_eq (logs : List AuditLog) : ∀ (ts : List Ticket) (acc : List Nat),
    reconcileAux logs ts acc =
      match computeWrites logs (ts.map Ticket.id) with
      | .error e => .error e
      | .ok ws => .ok (applyWrites ts ws, acc ++ ws.map Prod.fst) := by
  induction logs with
  | nil =>
    intro ts acc
    simp [reconcileAux, computeWrites, applyWrites_nil]
  | cons log rest ih =>
    intro ts acc
    by_cases hq : qualifiesDone log
    · cases hf : ts.findIdx? (fun t => t.id == log.auditable_id) with
      | none =>
        simp only [reconcileAux, computeWrites, hq, if_true, findIdx?_map_id, hf]
        exact ih ts acc
      | some i =>
        cases hp : strptimeIso log.created_at with
        | none =>
          simp only [reconcileAux, computeWrites, hq, if_true, findIdx?_map_id, hf, hp]
        | some dt =>
          simp only [reconcileAux, computeWrites, hq, if_true, findIdx?_map_id, hf, hp]
          rw [show ts.set i ((ts.getD i default).setCompletion (strftimeHuman dt)) =
            applyWrite ts (i, strftimeHuman dt) from rfl]
          rw [ih (applyWrite ts (i, strftimeHuman dt)) (acc ++ [i])]
          rw [applyWrite_map_id]
          cases hcw : computeWrites rest (ts.map Ticket.id) with
          | error e => rfl
          | ok ws =>
            simp only [applyWrites_cons, List.map_cons, List.append_assoc,
              List.singleton_append]
    · simp only [reconcileAux, computeWrites]
      rw [if_neg hq, if_neg hq]
      exact ih ts acc

theorem get_recent_done_eq (logs : List AuditLog) (ts : List Ticket) :
    get_recent_done_tickets logs ts =
      match computeWrites logs (ts.map Ticket.id) with
      | .error e => .error e
      | .ok ws => .ok (applyWrites ts ws,
          (ws.map Prod.fst).map fun i => (applyWrites ts ws).getD i default) := by
  unfold get_recent_done_tickets
  rw [reconcileAux_eq]
  cases computeWrites logs (ts.map Ticket.id) <;> simp

/-! ## Characterizations of the write sequence -/

theorem computeWrites_ok_mem (ids : List Int) :
    ∀ (logs : List AuditLog) (ws : List (Nat × String)),
      computeWrites logs ids = .ok ws →
      ∀ w ∈ ws, ∃ l ∈ logs, qualifiesDone l = true ∧
        ids.findIdx? (fun x => x == l.auditable_id) = some w.1 ∧
        ∃ dt, strptimeIso l.created_at = some dt ∧ w.2 = strftimeHuman dt := by
  intro logs
  induction logs with
  | nil =>
    intro ws h w hw
    simp only [computeWrites] at h
    cases h
    simp at hw
  | cons log rest ih =>
    intro ws h w hw
    simp only [computeWrites] at h
    by_cases hq : qualifiesDone log
    · rw [if_pos hq] at h
      cases hf : ids.findIdx? (fun x => x == log.auditable_id) with
      | none =>
        rw [hf] at h
        rcases ih ws h w hw with ⟨l, hl, h1, h2, h3⟩
        exact ⟨l, List.mem_cons_of_mem _ hl, h1, h2, h3⟩
      | some i =>
        rw [hf] at h
        cases hp : strptimeIso log.created_at with
        | none => rw [hp] at h; simp at h
        | some dt =>
          rw [hp] at h
          cases hcw : computeWrites rest ids with
          | error e => rw [hcw] at h; simp at h
          | ok ws' =>
            rw [hcw] at h
            cases h
            rcases List.mem_cons.mp hw with hw | hw
            · subst hw
              exact ⟨log, List.mem_cons_self _ _, hq, hf, dt, hp, rfl⟩
            · rcases ih ws' hcw w hw with ⟨l, hl, h1, h2, h3⟩
              exact ⟨l, List.mem_cons_of_mem _ hl, h1, h2, h3⟩
    · rw [if_neg hq] at h
      rcases ih ws h w hw with ⟨l, hl, h1, h2, h3⟩
      exact ⟨l, List.mem_cons_of_mem _ hl, h1, h2, h3⟩

theorem computeWrites_ok_map (ids : List Int) (d : Int) :
    ∀ (logs : List AuditLog) (ws : List (Nat × String)),
      computeWrites logs ids = .ok ws →
      ws.map (fun w => ids.getD w.1 d) =
        (logs.filter fun l => qualifiesDone l && ids.any fun x => x == l.auditable_id).map
          AuditLog.auditable_id := by
  intro logs
  induction logs with
  | nil =>
    intro ws h
    simp only [computeWrites] at h
    cases h
    simp
  | cons log rest ih =>
    intro ws h
    simp only [computeWrites] at h
    rw [List.filter_cons]
    by_cases hq : qualifiesDone log
    · rw [if_pos hq] at h
      cases hf : ids.findIdx? (fun x => x == log.auditable_id) with
      | none =>
        rw [hf] at h
        have hany : (ids.any fun x => x == log.auditable_id) = false := by
          rw [← List.findIdx?_isSome, hf]
          rfl
        rw [hq, hany]
        simp only [Bool.and_false, Bool.false_eq_true, if_false]
        exact ih ws h
      | some i =>
        rw [hf] at h
        cases hp : strptimeIso log.created_at with
        | none => rw [hp] at h; simp at h
        | some dt =>
          rw [hp] at h
          cases hcw : computeWrites rest ids with
          | error e => rw [hcw] at h; simp at h
          | ok ws' =>
            rw [hcw] at h
            cases h
            have hany : (ids.any fun x => x == log.auditable_id) = true := by
              rw [← List.findIdx?_isSome, hf]
              rfl
            have hid : ids.getD i d = log.auditable_id := by
              rcases List.findIdx?_eq_some_iff_getElem.mp hf with ⟨hlt, hbeq, _⟩
              have heq : ids[i] = log.auditable_id := by simpa using hbeq
              simp [List.getD_eq_getElem?_getD, List.getElem?_eq_getElem hlt, heq]
            rw [hq, hany]
            simp only [Bool.and_self, if_true, List.map_cons]
            rw [hid, ih ws' hcw]
    · rw [if_neg hq] at h
      have hq' : qualifiesDone log = false := by simpa using hq
      rw [hq']
      simp only [Bool.false_and, Bool.false_eq_true, if_false]
      exact ih ws h

theorem computeWrites_error_of_bad (ids : List Int) (l : AuditLog)
    (hq : qualifiesDone l = true)
    (hm : (ids.findIdx? fun x => x == l.auditable_id).isSome)
    (hp : strptimeIso l.created_at = none) :
    ∀ logs : List AuditLog, l ∈ logs →
      ∃ s, computeWrites logs ids = .error (.valueError s) := by
  intro logs
  induction logs with
  | nil => intro hl; simp at hl
  | cons log rest ih =>
    intro hl
    rcases List.mem_cons.mp hl with rfl | hmem
    · simp only [computeWrites, hq, if_true]
      rcases Option.isSome_iff_exists.mp hm with ⟨i, hf⟩
      rw [hf, hp]
      exact ⟨l.created_at, rfl⟩
    · simp only [computeWrites]
      by_cases hq2 : qualifiesDone log
      · rw [if_pos hq2]
        cases hf2 : ids.findIdx? (fun x => x == log.auditable_id) with
        | none => exact ih hmem
        | some i =>
          cases hp2 : strptimeIso log.created_at with
          | none => exact ⟨log.created_at, rfl⟩
          | some dt =>
            rcases ih hmem with ⟨s, hs⟩
            rw [hs]
            exact ⟨s, rfl⟩
      · rw [if_neg hq2]
        exact ih hmem

theorem computeWrites_const (ids : List Int) (x : Int) (i : Nat)
    (hfind : ids.findIdx? (fun v => v == x) = some i) :
    ∀ (logs : List AuditLog) (ws : List (Nat × String)),
      (∀ l ∈ logs, qualifiesDone l = true → l.auditable_id = x) →
      computeWrites logs ids = .ok ws →
      ws = (logs.filter qualifiesDone).map (fun l => (i, fmtOf l)) := by
  intro logs
  induction logs with
  | nil =>
    intro ws _ h
    simp only [computeWrites] at h
    cases h
    simp
  | cons log rest ih =>
    intro ws hall h
    simp only [computeWrites] at h
    rw [List.filter_cons]
    by_cases hq : qualifiesDone log
    · rw [if_pos hq] at h
      have haid : log.auditable_id = x := hall log (List.mem_cons_self _ _) hq
      rw [haid, hfind] at h
      cases hp : strptimeIso log.created_at with
      | none => rw [hp] at h; simp at h
      | some dt =>
        rw [hp] at h
        cases hcw : computeWrites rest ids with
        | error e => rw [hcw] at h; simp at h
        | ok ws' =>
          rw [hcw] at h
          cases h
          have htail := ih ws' (fun l hl hq2 => hall l (List.mem_cons_of_mem _ hl) hq2) hcw
          rw [hq]
          simp only [if_true, List.map_cons]
          rw [htail]
          have hfmt : fmtOf log = strftimeHuman dt := by
            unfold fmtOf
            rw [hp]
          rw [hfmt]
    · rw [if_neg hq] at h
      have hq' : qualifiesDone log = false := by simpa using hq
      rw [hq']
      simp only [Bool.false_eq_true, if_false]
      exact ih ws (fun l hl hq2 => hall l (List.mem_cons_of_mem _ hl) hq2) h

/-! ## Classifier lemmas -/

theorem emptySummary_get (k : String) : emptySummary.get k = [] := by
  unfold emptySummary TicketsSummary.get
  split_ifs <;> rfl

theorem addToBucket_get (s : TicketsSummary) (k : String) (t : Ticket) (k' : String)
    (hk : k ∈ statusKeys) :
    (addToBucket s k t).get k' = if k' = k then s.get k' ++ [t] else s.get k' := by
  simp only [statusKeys, List.mem_cons, List.not_mem_nil, or_false] at hk
  rcases hk with rfl | rfl | rfl | rfl | rfl
  · by_cases hk' : k' = "open" <;> simp [addToBucket, TicketsSummary.get, hk']
  · by_cases hk' : k' = "blocked" <;> simp [addToBucket, TicketsSummary.get, hk']
  · by_cases hk' : k' = "in_progress" <;> simp [addToBucket, TicketsSummary.get, hk']
  · by_cases hk' : k' = "in_review" <;> simp [addToBucket, TicketsSummary.get, hk']
  · by_cases hk' : k' = "done" <;> simp [addToBucket, TicketsSummary.get, hk']

theorem sortBuckets_get (s : TicketsSummary) (k : String) (hk : k ∈ statusKeys) :
    (sortBuckets s).get k = (s.get k).mergeSort tLe := by
  simp only [statusKeys, List.mem_cons, List.not_mem_nil, or_false] at hk
  rcases hk with rfl | rfl | rfl | rfl | rfl <;> rfl

theorem categorizeLoop_ok_char :
    ∀ (ts : List Ticket) (s : TicketsSummary) (risks : List Ticket)
      (S : TicketsSummary) (R : List Ticket),
      categorizeLoop ts s risks = .ok (S, R) →
      R = risks ++ ts.filter riskPred ∧
      ∀ k ∈ statusKeys, S.get k = s.get k ++ ts.filter (bucketPred k) := by
  intro ts
  induction ts with
  | nil =>
    intro s risks S R h
    simp only [categorizeLoop] at h
    cases h
    exact ⟨by simp, fun k _ => by simp⟩
  | cons t ts ih =>
    intro s risks S R h
    simp only [categorizeLoop] at h
    cases hty : t.type with
    | none => simp only [hty] at h; simp at h
    | some ty =>
      simp only [hty] at h
      by_cases hr : ty = "Risk"
      · rw [if_pos hr] at h
        rcases ih s (risks ++ [t]) S R h with ⟨h1, h2⟩
        constructor
        · have hrp : riskPred t = true := by simp [riskPred, hty, hr]
          rw [h1, List.filter_cons, hrp]
          simp
        · intro k hk
          have hbp : bucketPred k t = false := by simp [bucketPred, hty, hr]
          rw [List.filter_cons, hbp]
          simp only [Bool.false_eq_true, if_false]
          exact h2 k hk
      · rw [if_neg hr] at h
        have hrp : riskPred t = false := by simp [riskPred, hty, hr]
        cases hst : t.status with
        | none => simp only [hst] at h; simp at h
        | some st =>
          simp only [hst] at h
          by_cases hks : st ∈ statusKeys
          · rw [if_pos hks] at h
            rcases ih (addToBucket s st t) risks S R h with ⟨h1, h2⟩
            constructor
            · rw [h1, List.filter_cons, hrp]
              simp
            · intro k hk
              rw [h2 k hk, addToBucket_get s st t k hks, List.filter_cons]
              by_cases hkk : k = st
              · subst hkk
                have hbp : bucketPred k t = true := by simp [bucketPred, hty, hr, hst]
                rw [hbp, if_pos rfl]
                simp
              · have hbp : bucketPred k t = false := by
                  simp only [bucketPred, hty, hst, Bool.and_eq_false_iff]
                  right
                  simp only [beq_eq_false_iff_ne, ne_eq, Option.some.injEq]
                  exact fun hc => hkk hc.symm
                rw [hbp, if_neg hkk]
                simp
          · rw [if_neg hks] at h
            rcases ih s risks S R h with ⟨h1, h2⟩
            constructor
            · rw [h1, List.filter_cons, hrp]
              simp
            · intro k hk
              have hbp : bucketPred k t = false := by
                simp only [bucketPred, hty, hst, Bool.and_eq_false_iff]
                right
                simp only [beq_eq_false_iff_ne, ne_eq, Option.some.injEq]
                exact fun hc => hks (by rw [hc]; exact hk)
              rw [List.filter_cons, hbp]
              simp only [Bool.false_eq_true, if_false]
              exact h2 k hk

theorem categorizeLoop_ok_wf :
    ∀ (ts : List Ticket) (s : TicketsSummary) (risks : List Ticket)
      (out : TicketsSummary × List Ticket),
      categorizeLoop ts s risks = .ok out → ∀ t ∈ ts, WfTicket t := by
  intro ts
  induction ts with
  | nil => intro s risks out _ t ht; simp at ht
  | cons t0 ts ih =>
    intro s risks out h t ht
    simp only [categorizeLoop] at h
    cases hty : t0.type with
    | none => simp only [hty] at h; simp at h
    | some ty =>
      simp only [hty] at h
      by_cases hr : ty = "Risk"
      · rw [if_pos hr] at h
        rcases List.mem_cons.mp ht with rfl | hmem
        · exact ⟨by simp [hty], fun hnr => absurd (by rw [hty, hr]) hnr⟩
        · exact ih s (risks ++ [t0]) out h t hmem
      · rw [if_neg hr] at h
        cases hst : t0.status with
        | none => simp only [hst] at h; simp at h
        | some st =>
          simp only [hst] at h
          rcases List.mem_cons.mp ht with rfl | hmem
          · exact ⟨by simp [hty], fun _ => by simp [hst]⟩
          · by_cases hks : st ∈ statusKeys
            · rw [if_pos hks] at h
              exact ih (addToBucket s st t0) risks out h t hmem
            · rw [if_neg hks] at h
              exact ih s risks out h t hmem

theorem categorizeLoop_wf_ok :
    ∀ (ts : List Ticket), (∀ t ∈ ts, WfTicket t) →
      ∀ (s : TicketsSummary) (risks : List Ticket),
        ∃ S R, categorizeLoop ts s risks = .ok (S, R) := by
  intro ts
  induction ts with
  | nil => intro _ s risks; exact ⟨s, risks, rfl⟩
  | cons t ts ih =>
    intro hwf s risks
    have hwft := hwf t (List.mem_cons_self _ _)
    have hwfr : ∀ u ∈ ts, WfTicket u := fun u hu => hwf u (List.mem_cons_of_mem _ hu)
    cases hty : t.type with
    | none => exact absurd hty hwft.1
    | some ty =>
      by_cases hr : ty = "Risk"
      · rcases ih hwfr s (risks ++ [t]) with ⟨S, R, hSR⟩
        refine ⟨S, R, ?_⟩
        simp only [categorizeLoop, hty, if_pos hr]
        exact hSR
      · cases hst : t.status with
        | none =>
          have hne : t.type ≠ some "Risk" := by
            rw [hty]
            exact fun hc => hr (by simpa using hc)
          exact absurd hst (hwft.2 hne)
        | some st =>
          by_cases hks : st ∈ statusKeys
          · rcases ih hwfr (addToBucket s st t) risks with ⟨S, R, hSR⟩
            refine ⟨S, R, ?_⟩
            simp only [categorizeLoop, hty, if_neg hr, hst, if_pos hks]
            exact hSR
          · rcases ih hwfr s risks with ⟨S, R, hSR⟩
            refine ⟨S, R, ?_⟩
            simp only [categorizeLoop, hty, if_neg hr, hst, if_neg hks]
            exact hSR

theorem categorize_ok_char (ts : List Ticket) (S : TicketsSummary) (R : List Ticket)
    (h : categorize_tickets ts = .ok (S, R)) :
    R = ts.filter riskPred ∧
    (∀ k ∈ statusKeys, S.get k = (ts.filter (bucketPred k)).mergeSort tLe) ∧
    (∀ t ∈ ts, WfTicket t) := by
  unfold categorize_tickets at h
  cases hcl : categorizeLoop ts emptySummary [] with
  | error e => rw [hcl] at h; simp at h
  | ok p =>
    rw [hcl] at h
    obtain ⟨s0, r0⟩ := p
    simp only [Except.ok.injEq, Prod.mk.injEq] at h
    rcases h with ⟨hS, hR⟩
    rcases categorizeLoop_ok_char ts emptySummary [] s0 r0 hcl with ⟨h1, h2⟩
    refine ⟨?_, ?_, categorizeLoop_ok_wf ts emptySummary [] _ hcl⟩
    · rw [← hR, h1]
      simp
    · intro k hk
      rw [← hS, sortBuckets_get s0 k hk, h2 k hk, emptySummary_get]
      simp

theorem categorize_wf_ok (ts : List Ticket) (h : ∀ t ∈ ts, WfTicket t) :
    ∃ S R, categorize_tickets ts = .ok (S, R) := by
  rcases categorizeLoop_wf_ok ts h emptySummary [] with ⟨S0, R0, hcl⟩
  refine ⟨sortBuckets S0, R0, ?_⟩
  unfold categorize_tickets
  rw [hcl]

theorem categorizeLoop_bad_error :
    ∀ (ts : List Ticket),
      (∃ t ∈ ts, t.type = none ∨ (t.type ≠ some "Risk" ∧ t.status = none)) →
      ∀ (s : TicketsSummary) (risks : List Ticket),
        ∃ k, categorizeLoop ts s risks = .error (.keyError k) ∧
          (k = "type" ∨ k = "status") := by
  intro ts
  induction ts with
  | nil => intro hex; simp at hex
  | cons t ts ih =>
    intro hex s risks
    rcases hex with ⟨t0, ht0, hbad⟩
    rcases List.mem_cons.mp ht0 with rfl | hmem
    · cases hty : t0.type with
      | none =>
        refine ⟨"type", ?_, Or.inl rfl⟩
        simp only [categorizeLoop, hty]
      | some ty =>
        rcases hbad with hbad | ⟨hnr, hst⟩
        · exact absurd hty (by rw [hbad]; exact fun hc => Option.noConfusion hc)
        · have hr : ¬ ty = "Risk" := by
            intro hc
            exact hnr (by rw [hty, hc])
          refine ⟨"status", ?_, Or.inr rfl⟩
          simp only [categorizeLoop, hty, if_neg hr, hst]
    · cases hty : t.type with
      | none =>
        refine ⟨"type", ?_, Or.inl rfl⟩
        simp only [categorizeLoop, hty]
      | some ty =>
        by_cases hr : ty = "Risk"
        · rcases ih ⟨t0, hmem, hbad⟩ s (risks ++ [t]) with ⟨k, hk, hor⟩
          refine ⟨k, ?_, hor⟩
          simp only [categorizeLoop, hty, if_pos hr]
          exact hk
        · cases hst : t.status with
          | none =>
            refine ⟨"status", ?_, Or.inr rfl⟩
            simp only [categorizeLoop, hty, if_neg hr, hst]
          | some st =>
            by_cases hks : st ∈ statusKeys
            · rcases ih ⟨t0, hmem, hbad⟩ (addToBucket s st t) risks with ⟨k, hk, hor⟩
              refine ⟨k, ?_, hor⟩
              simp only [categorizeLoop, hty, if_neg hr, hst, if_pos hks]
              exact hk
            · rcases ih ⟨t0, hmem, hbad⟩ s risks with ⟨k, hk, hor⟩
              refine ⟨k, ?_, hor⟩
              simp only [categorizeLoop, hty, if_neg hr, hst, if_neg hks]
              exact hk

/-! ## Stable-sort lemmas -/

theorem tLe_trans : ∀ (a b c : Ticket), tLe a b → tLe b c → tLe a c := by
  intro a b c hab hbc
  simp only [tLe, decide_eq_true_eq] at *
  exact le_trans hab hbc

theorem tLe_total : ∀ (a b : Ticket), tLe a b || tLe b a := by
  intro a b
  simp only [tLe, Bool.or_eq_true, decide_eq_true_eq]
  exact le_total _ _

theorem pairwise_tLe_of_const_key (L : List Ticket) (v : String)
    (h : ∀ t ∈ L, sortKey t = v) : L.Pairwise (fun a b => tLe a b = true) := by
  apply List.pairwise_of_forall_mem_list
  intro a ha b hb
  simp only [tLe, decide_eq_true_eq]
  rw [h a ha, h b hb]

theorem mergeSort_sorted_key (L : List Ticket) :
    (L.mergeSort tLe).Pairwise (fun a b => sortKey a ≤ sortKey b) := by
  have hs := List.sorted_mergeSort tLe_trans tLe_total L
  exact hs.imp (fun hab => by simpa [tLe, decide_eq_true_eq] using hab)

theorem mergeSort_filter_key (L : List Ticket) (v : String) :
    (L.mergeSort tLe).filter (fun t => sortKey t == v) =
      L.filter (fun t => sortKey t == v) := by
  have hCkey : ∀ t ∈ L.filter (fun t => sortKey t == v), sortKey t = v := by
    intro t ht
    have hb := (List.mem_filter.mp ht).2
    simpa using hb
  have hpC : (L.filter (fun t => sortKey t == v)).Pairwise (fun a b => tLe a b = true) :=
    pairwise_tLe_of_const_key _ v hCkey
  have hsub : List.Sublist (L.filter (fun t => sortKey t == v)) L := List.filter_sublist L
  have h2 : List.Sublist (L.filter (fun t => sortKey t == v)) (L.mergeSort tLe) :=
    List.sublist_mergeSort tLe_trans tLe_total hpC hsub
  have h3 : List.Sublist (L.filter (fun t => sortKey t == v))
      ((L.mergeSort tLe).filter (fun t => sortKey t == v)) := by
    have h4 := h2.filter (fun t => sortKey t == v)
    rwa [List.filter_eq_self.mpr (fun a ha => (List.mem_filter.mp ha).2)] at h4
  have hperm : ((L.mergeSort tLe).filter (fun t => sortKey t == v)).length =
      (L.filter (fun t => sortKey t == v)).length :=
    ((List.mergeSort_perm L tLe).filter _).length_eq
  exact (h3.eq_of_length hperm.symm).symm

/-! ## Remaining helper lemmas -/

theorem qualifiesDone_eq (l : AuditLog) :
    qualifiesDone l = ((l.action == "update") &&
      (l.changes.status.bind StatusDelta.new_value == some "DONE")) := by
  unfold qualifiesDone Changes.isTruthy
  cases hs : l.changes.status with
  | none => simp [hs]
  | some d => simp [hs]

theorem getD_map_id (L : List Ticket) (i : Nat) :
    (L.getD i default).id = (L.map Ticket.id).getD i (default : Ticket).id := by
  by_cases hi : i < L.length
  · simp [List.getD_eq_getElem?_getD, List.getElem?_eq_getElem hi, List.getElem?_map]
  · have h1 : L[i]? = none := List.getElem?_eq_none (Nat.le_of_not_lt hi)
    have h2 : (L.map Ticket.id)[i]? = none := by
      rw [List.getElem?_map, h1]
      rfl
    simp [List.getD_eq_getElem?_getD, h1, h2]

theorem computeWrites_ok_parses (ids : List Int) :
    ∀ (logs : List AuditLog) (ws : List (Nat × String)),
      computeWrites logs ids = .ok ws →
      ∀ l ∈ logs, qualifiesDone l = true →
        (ids.findIdx? fun x => x == l.auditable_id).isSome →
        ∃ dt, strptimeIso l.created_at = some dt := by
  intro logs
  induction logs with
  | nil => intro ws _ l hl; simp at hl
  | cons log rest ih =>
    intro ws h l hl hq hm
    simp only [computeWrites] at h
    by_cases hq0 : qualifiesDone log
    · rw [if_pos hq0] at h
      cases hf : ids.findIdx? (fun x => x == log.auditable_id) with
      | none =>
        rw [hf] at h
        rcases List.mem_cons.mp hl with rfl | hmem
        · rw [hf] at hm
          simp at hm
        · exact ih ws h l hmem hq hm
      | some i =>
        rw [hf] at h
        cases hp : strptimeIso log.created_at with
        | none => rw [hp] at h; simp at h
        | some dt =>
          rw [hp] at h
          cases hcw : computeWrites rest ids with
          | error e => rw [hcw] at h; simp at h
          | ok ws' =>
            rcases List.mem_cons.mp hl with rfl | hmem
            · exact ⟨dt, hp⟩
            · exact ih ws' hcw l hmem hq hm
    · rw [if_neg hq0] at h
      rcases List.mem_cons.mp hl with rfl | hmem
      · exact absurd hq hq0
      · exact ih ws h l hmem hq hm

theorem lastWrite_const :
    ∀ (ws : List (Nat × String)) (i : Nat), (∀ w ∈ ws, w.1 = i) →
      lastWrite ws i = (ws.map Prod.snd).getLast? := by
  intro ws i
  induction ws with
  | nil => intro _; rfl
  | cons w ws ih =>
    intro hall
    simp only [lastWrite]
    cases hlw : lastWrite ws i with
    | some cd =>
      rw [ih (fun u hu => hall u (List.mem_cons_of_mem _ hu))] at hlw
      cases ws with
      | nil => exact Option.noConfusion hlw
      | cons w2 rest =>
        simp only [List.map_cons, List.getLast?_cons_cons]
        simp only [List.map_cons] at hlw
        rw [hlw]
    | none =>
      rw [ih (fun u hu => hall u (List.mem_cons_of_mem _ hu))] at hlw
      have hnil : ws = [] := by
        have h0 := List.getLast?_eq_none_iff.mp hlw
        exact List.map_eq_nil_iff.mp h0
      subst hnil
      rw [if_pos (hall w (List.mem_cons_self _ _))]
      rfl

/-! ## Claim theorems: classifier -/

/-- C2: on every successful run, `categorize_tickets` places every ticket in
exactly one of the risk list (type `"Risk"`, regardless of status), exactly one
of the five status buckets (non-`Risk` type, recognized status), or nowhere
(non-`Risk` type, unrecognized status); risk classification takes precedence,
and the union of risk list and buckets is exactly the risk-or-recognized subset
of the input. -/
theorem categorize_tickets_partition (ts : List Ticket) (S : TicketsSummary) (R : List Ticket)
    (h : categorize_tickets ts = .ok (S, R)) : CategorizePartition ts S R := by
  rcases categorize_ok_char ts S R h with ⟨hR, hS, hwf⟩
  have hmemB : ∀ k, k ∈ statusKeys → ∀ t : Ticket,
      t ∈ S.get k ↔ (t ∈ ts ∧ bucketPred k t = true) := by
    intro k hk t
    rw [hS k hk, List.mem_mergeSort, List.mem_filter]
  have hmemR : ∀ t : Ticket, t ∈ R ↔ (t ∈ ts ∧ riskPred t = true) := by
    intro t
    rw [hR, List.mem_filter]
  have hrp : ∀ t : Ticket, riskPred t = true ↔ t.type = some "Risk" := by
    intro t
    simp [riskPred]
  have hbp : ∀ (k : String) (t : Ticket), bucketPred k t = true ↔
      (t.type ≠ none ∧ t.type ≠ some "Risk" ∧ t.status = some k) := by
    intro k t
    unfold bucketPred
    cases hty : t.type with
    | none => simp
    | some ty => simp
  refine ⟨?_, ?_, ?_, ?_⟩
  · intro t ht hty
    refine ⟨(hmemR t).mpr ⟨ht, (hrp t).mpr hty⟩, ?_⟩
    intro k hk hmem
    have hb := ((hmemB k hk t).mp hmem).2
    exact ((hbp k t).mp hb).2.1 hty
  · intro t ht ty hty hr k hk hst
    have htype_ne : t.type ≠ some "Risk" := by
      rw [hty]
      exact fun hc => hr (by simpa using hc)
    refine ⟨?_, ?_, ?_⟩
    · exact (hmemB k hk t).mpr ⟨ht, (hbp k t).mpr
        ⟨by rw [hty]; exact fun hc => Option.noConfusion hc, htype_ne, hst⟩⟩
    · intro hmem
      exact htype_ne ((hrp t).mp ((hmemR t).mp hmem).2)
    · intro k' hk' hkk hmem
      have hb := ((hmemB k' hk' t).mp hmem).2
      have hst' := ((hbp k' t).mp hb).2.2
      rw [hst] at hst'
      exact hkk (Option.some.inj hst').symm
  · intro t ht ty hty hr hnone
    constructor
    · intro hmem
      have hrisk := (hrp t).mp ((hmemR t).mp hmem).2
      rw [hty] at hrisk
      exact hr (by simpa using hrisk)
    · intro k hk hmem
      have hb := ((hmemB k hk t).mp hmem).2
      exact (hnone k hk) ((hbp k t).mp hb).2.2
  · intro t
    constructor
    · rintro (hmem | ⟨k, hk, hmem⟩)
      · rcases (hmemR t).mp hmem with ⟨ht, hb⟩
        exact ⟨ht, Or.inl ((hrp t).mp hb)⟩
      · rcases (hmemB k hk t).mp hmem with ⟨ht, hb⟩
        rcases (hbp k t).mp hb with ⟨-, hne, hst⟩
        exact ⟨ht, Or.inr ⟨hne, k, hk, hst⟩⟩
    · rintro ⟨ht, hty | ⟨hne, k, hk, hst⟩⟩
      · exact Or.inl ((hmemR t).mpr ⟨ht, (hrp t).mpr hty⟩)
      · exact Or.inr ⟨k, hk, (hmemB k hk t).mpr ⟨ht, (hbp k t).mpr ⟨(hwf t ht).1, hne, hst⟩⟩⟩

/-- Witness for C2 at the spec's scenario ticket list. -/
theorem categorize_tickets_partition_witness :
    categorize_tickets [t58, t59] =
        .ok (⟨[], [], [t58], [], [t59]⟩, []) ∧
      CategorizePartition [t58, t59] ⟨[], [], [t58], [], [t59]⟩ [] := by
  have h : categorize_tickets [t58, t59] = .ok (⟨[], [], [t58], [], [t59]⟩, []) := by
    simp [categorize_tickets, categorizeLoop, addToBucket, sortBuckets, emptySummary,
      statusKeys, t58, t59]
  exact ⟨h, categorize_tickets_partition [t58, t59] ⟨[], [], [t58], [], [t59]⟩ [] h⟩

/-- C4: on every successful run, each of the five status buckets is sorted
ascending by `start_date` (a missing `start_date` reads as `""`), and the sort
is stable: for every key value, the tickets carrying it appear in the bucket in
their input (fetch) order, i.e. exactly as in the filtered input list. -/
theorem categorize_tickets_buckets_sorted_stable (ts : List Ticket) (S : TicketsSummary)
    (R : List Ticket) (h : categorize_tickets ts = .ok (S, R)) :
    ∀ k ∈ statusKeys,
      (S.get k).Pairwise (fun a b => sortKey a ≤ sortKey b) ∧
      ∀ v : String, (S.get k).filter (fun t => sortKey t == v) =
        (ts.filter (bucketPred k)).filter (fun t => sortKey t == v) := by
  intro k hk
  rcases categorize_ok_char ts S R h with ⟨-, hS, -⟩
  rw [hS k hk]
  exact ⟨mergeSort_sorted_key _, fun v => mergeSort_filter_key _ v⟩

/-- Witness for C4 at the spec's scenario ticket list and the `"done"` bucket. -/
theorem categorize_tickets_buckets_sorted_stable_witness :
    categorize_tickets [t58, t59] = .ok (⟨[], [], [t58], [], [t59]⟩, []) ∧
    "done" ∈ statusKeys ∧
    (((⟨[], [], [t58], [], [t59]⟩ : TicketsSummary).get "done").Pairwise
        (fun a b => sortKey a ≤ sortKey b) ∧
      ∀ v : String,
        ((⟨[], [], [t58], [], [t59]⟩ : TicketsSummary).get "done").filter
            (fun t => sortKey t == v) =
          ([t58, t59].filter (bucketPred "done")).filter (fun t => sortKey t == v)) := by
  have h : categorize_tickets [t58, t59] = .ok (⟨[], [], [t58], [], [t59]⟩, []) := by
    simp [categorize_tickets, categorizeLoop, addToBucket, sortBuckets, emptySummary,
      statusKeys, t58, t59]
  exact ⟨h, by decide,
    categorize_tickets_buckets_sorted_stable [t58, t59] _ _ h "done" (by decide)⟩

/-- C6: when some ticket lacks the `type` field, or some non-risk ticket lacks
the `status` field, classification fails with the missing-required-field error
(the `KeyError` for key `"type"` or `"status"` — the spec's
`MalformedTicketError`), rather than succeeding or failing differently. -/
theorem categorize_tickets_missing_field_error (ts : List Ticket)
    (h : (∃ t ∈ ts, t.type = none) ∨
      (∃ t ∈ ts, t.type ≠ none ∧ t.type ≠ some "Risk" ∧ t.status = none)) :
    ∃ k, categorize_tickets ts = .error (.keyError k) ∧ (k = "type" ∨ k = "status") := by
  have hex : ∃ t ∈ ts, t.type = none ∨ (t.type ≠ some "Risk" ∧ t.status = none) := by
    rcases h with ⟨t, ht, hn⟩ | ⟨t, ht, _, hnr, hst⟩
    · exact ⟨t, ht, Or.inl hn⟩
    · exact ⟨t, ht, Or.inr ⟨hnr, hst⟩⟩
  rcases categorizeLoop_bad_error ts hex emptySummary [] with ⟨k, hk, hor⟩
  refine ⟨k, ?_, hor⟩
  unfold categorize_tickets
  rw [hk]

/-- Witness for C6 at a one-ticket list whose ticket lacks `type`. -/
theorem categorize_tickets_missing_field_error_witness :
    ((∃ t ∈ [noType], t.type = none) ∨
      (∃ t ∈ [noType], t.type ≠ none ∧ t.type ≠ some "Risk" ∧ t.status = none)) ∧
    ∃ k, categorize_tickets [noType] = .error (.keyError k) ∧
      (k = "type" ∨ k = "status") := by
  have h : (∃ t ∈ [noType], t.type = none) ∨
      (∃ t ∈ [noType], t.type ≠ none ∧ t.type ≠ some "Risk" ∧ t.status = none) :=
    Or.inl (by decide)
  exact ⟨h, categorize_tickets_missing_field_error [noType] h⟩

/-- C8: `categorize_tickets` mutates no input ticket.  In this embedding the
function is pure — the source loop performs no field assignment, so its
faithful translation takes the ticket list by value and only builds the two
output structures; the theorem records the observable residue: every ticket
object delivered in the risk list or any bucket is one of the input tickets,
field for field unchanged. -/
theorem categorize_tickets_no_mutation (ts : List Ticket) (S : TicketsSummary)
    (R : List Ticket) (h : categorize_tickets ts = .ok (S, R)) :
    (∀ t ∈ R, t ∈ ts) ∧ ∀ k ∈ statusKeys, ∀ t ∈ S.get k, t ∈ ts := by
  rcases categorize_ok_char ts S R h with ⟨hR, hS, -⟩
  constructor
  · intro t ht
    rw [hR] at ht
    exact (List.mem_filter.mp ht).1
  · intro k hk t ht
    rw [hS k hk] at ht
    rw [List.mem_mergeSort] at ht
    exact (List.mem_filter.mp ht).1

/-- Witness for C8 at the spec's scenario ticket list. -/
theorem categorize_tickets_no_mutation_witness :
    categorize_tickets [t58, t59] = .ok (⟨[], [], [t58], [], [t59]⟩, []) ∧
    ((∀ t ∈ ([] : List Ticket), t ∈ [t58, t59]) ∧
      ∀ k ∈ statusKeys,
        ∀ t ∈ (⟨[], [], [t58], [], [t59]⟩ : TicketsSummary).get k, t ∈ [t58, t59]) := by
  have h : categorize_tickets [t58, t59] = .ok (⟨[], [], [t58], [], [t59]⟩, []) := by
    simp [categorize_tickets, categorizeLoop, addToBucket, sortBuckets, emptySummary,
      statusKeys, t58, t59]
  exact ⟨h, categorize_tickets_no_mutation [t58, t59] _ _ h⟩

/-- C10 (implicit): for a ticket of type `"Risk"` the classifier never reads
`status`: a well-typed run only needs `status` on non-risk tickets, so a risk
ticket lacking `status` is still classified into the risk list with no error;
the missing-status error can only arise for non-risk tickets. -/
theorem categorize_tickets_risk_ignores_status (ts : List Ticket)
    (h : ∀ t ∈ ts, t.type ≠ none ∧ (t.type ≠ some "Risk" → t.status ≠ none)) :
    ∃ S R, categorize_tickets ts = .ok (S, R) ∧
      ∀ t ∈ ts, t.type = some "Risk" → t ∈ R := by
  have hwf : ∀ t ∈ ts, WfTicket t := fun t ht => ⟨(h t ht).1, (h t ht).2⟩
  rcases categorize_wf_ok ts hwf with ⟨S, R, hok⟩
  refine ⟨S, R, hok, ?_⟩
  rcases categorize_ok_char ts S R hok with ⟨hR, -, -⟩
  intro t ht hty
  rw [hR]
  exact List.mem_filter.mpr ⟨ht, by simp [riskPred, hty]⟩

/-- Witness for C10 at a one-ticket list holding a risk ticket with no
`status` field. -/
theorem categorize_tickets_risk_ignores_status_witness :
    (∀ t ∈ [riskNoStatus], t.type ≠ none ∧ (t.type ≠ some "Risk" → t.status ≠ none)) ∧
    ∃ S R, categorize_tickets [riskNoStatus] = .ok (S, R) ∧
      ∀ t ∈ [riskNoStatus], t.type = some "Risk" → t ∈ R := by
  have h : ∀ t ∈ [riskNoStatus], t.type ≠ none ∧ (t.type ≠ some "Risk" → t.status ≠ none) := by
    decide
  exact ⟨h, categorize_tickets_risk_ignores_status [riskNoStatus] h⟩

/-! ## Claim theorems: reconciler -/

theorem any_map_general {α β : Type _} (l : List α) (f : α → β) (p : β → Bool) :
    (l.map f).any p = l.any (fun a => p (f a)) := by
  induction l with
  | nil => rfl
  | cons a l ih => simp [List.any_cons, ih]

/-- C1: on every successful run, an audit-log entry contributes an element to
the returned list if and only if its action is `"update"`, its changes carry a
status delta whose new value is `"DONE"`, and its `auditable_id` is the id of
some input ticket; entries with unknown ids are silently dropped, and the
output is in audit-log input order (stated as: the output's ids are exactly
the `auditable_id`s of the qualifying entries, in order). -/
theorem get_recent_done_iff_order (logs : List AuditLog) (ts ts' out : List Ticket)
    (h : get_recent_done_tickets logs ts = .ok (ts', out)) :
    out.map Ticket.id =
      (logs.filter fun l => (l.action == "update") &&
        (l.changes.status.bind StatusDelta.new_value == some "DONE") &&
        ts.any (fun t => t.id == l.auditable_id)).map AuditLog.auditable_id := by
  rw [get_recent_done_eq] at h
  cases hcw : computeWrites logs (ts.map Ticket.id) with
  | error e => rw [hcw] at h; simp at h
  | ok ws =>
    rw [hcw] at h
    simp only [Except.ok.injEq, Prod.mk.injEq] at h
    rcases h with ⟨hts, hout⟩
    have hmap := computeWrites_ok_map (ts.map Ticket.id) ((default : Ticket).id) logs ws hcw
    have hstep : out.map Ticket.id =
        ws.map (fun w => (ts.map Ticket.id).getD w.1 (default : Ticket).id) := by
      rw [← hout, List.map_map, List.map_map]
      apply List.map_congr_left
      intro w _
      show ((applyWrites ts ws).getD w.1 default).id =
        (ts.map Ticket.id).getD w.1 (default : Ticket).id
      rw [getD_map_id, applyWrites_map_id]
    have hfc : (logs.filter fun l => qualifiesDone l &&
          (ts.map Ticket.id).any fun x => x == l.auditable_id) =
        (logs.filter fun l => (l.action == "update") &&
          (l.changes.status.bind StatusDelta.new_value == some "DONE") &&
          ts.any (fun t => t.id == l.auditable_id)) := by
      apply List.filter_congr
      intro l _
      rw [qualifiesDone_eq, any_map_general]
    rw [hstep, hmap, hfc]

/-- Witness for C1 at the spec's scenario entry and ticket list. -/
theorem get_recent_done_iff_order_witness :
    get_recent_done_tickets [log59] [t58, t59] = .ok ([t58, t59done], [t59done]) ∧
    [t59done].map Ticket.id =
      ([log59].filter fun l => (l.action == "update") &&
        (l.changes.status.bind StatusDelta.new_value == some "DONE") &&
        [t58, t59].any (fun t => t.id == l.auditable_id)).map AuditLog.auditable_id :=
  ⟨by decide, get_recent_done_iff_order [log59] [t58, t59] [t58, t59done] [t59done] (by decide)⟩

/-- C3 counterexample: a qualifying, matched entry whose `created_at` does not
parse makes `get_recent_done_tickets` abort the whole call with the raised
`ValueError` — the later qualifying entry `log59` is never processed and no
result list is produced, contradicting the claimed skip-and-continue policy. -/
theorem get_recent_done_parse_abort_cex :
    get_recent_done_tickets [logBad, log59] [t58, t59] =
      .error (.valueError "2024-11-20 10:00:00") := by decide

/-- C3 (amended): when some qualifying entry matches a ticket and its
`created_at` fails to parse in the fixed format, `get_recent_done_tickets`
aborts the whole reconciliation with the propagated `ValueError`; there is no
per-entry skip.  (A qualifying entry with an unparseable timestamp but no
matching ticket is still skipped silently, because the lookup precedes the
parse.) -/
theorem get_recent_done_parse_error_aborts (logs : List AuditLog) (ts : List Ticket)
    (l : AuditLog) (hl : l ∈ logs) (hq : qualifiesDone l = true)
    (hm : ts.any (fun t => t.id == l.auditable_id) = true)
    (hp : strptimeIso l.created_at = none) :
    ∃ s, get_recent_done_tickets logs ts = .error (.valueError s) := by
  have hm2 : ((ts.map Ticket.id).findIdx? fun x => x == l.auditable_id).isSome := by
    rw [List.findIdx?_isSome, any_map_general]
    exact hm
  rcases computeWrites_error_of_bad (ts.map Ticket.id) l hq hm2 hp logs hl with ⟨s, hs⟩
  refine ⟨s, ?_⟩
  rw [get_recent_done_eq]
  simp only [hs]

/-- Witness for amended C3 at a malformed-timestamp entry. -/
theorem get_recent_done_parse_error_aborts_witness :
    logBad ∈ [logBad, log59] ∧ qualifiesDone logBad = true ∧
    [t58, t59].any (fun t => t.id == logBad.auditable_id) = true ∧
    strptimeIso logBad.created_at = none ∧
    ∃ s, get_recent_done_tickets [logBad, log59] [t58, t59] = .error (.valueError s) :=
  ⟨by decide, by decide, by decide, by decide,
    get_recent_done_parse_error_aborts [logBad, log59] [t58, t59] logBad
      (by decide) (by decide) (by decide) (by decide)⟩

/-- C5: every element of the returned list is a shared ticket object of the
final store (the same mutated instance the classifier's structures reference),
annotated before being appended: its `completion_date` equals the `created_at`
of a qualifying entry referencing its id, parsed with `"%Y-%m-%dT%H:%M:%S.%f"`
and reformatted with `"%Y-%m-%d %H:%M:%S"`.  In particular, for the entry with
`auditable_id` 59, action `"update"`, status new value `"DONE"` and
`created_at` `"2024-11-20T10:00:00.0"`, the output contains ticket 59
annotated with `completion_date "2024-11-20 10:00:00"`, and the shared store
entry for ticket 59 carries the same annotation. -/
theorem get_recent_done_completion_annotation :
    (∀ (logs : List AuditLog) (ts ts' out : List Ticket),
      get_recent_done_tickets logs ts = .ok (ts', out) →
      ∀ t ∈ out, t ∈ ts' ∧ ∃ l ∈ logs, qualifiesDone l = true ∧ l.auditable_id = t.id ∧
        ∃ dt, strptimeIso l.created_at = some dt ∧
          t.completion_date = some (strftimeHuman dt)) ∧
    get_recent_done_tickets [log59] [t58, t59] = .ok ([t58, t59done], [t59done]) := by
  constructor
  · intro logs ts ts' out h t ht
    rw [get_recent_done_eq] at h
    cases hcw : computeWrites logs (ts.map Ticket.id) with
    | error e => rw [hcw] at h; simp at h
    | ok ws =>
      rw [hcw] at h
      simp only [Except.ok.injEq, Prod.mk.injEq] at h
      rcases h with ⟨hts, hout⟩
      rw [← hout] at ht
      rcases List.mem_map.mp ht with ⟨i, hi, hgi⟩
      rcases lastWrite_isSome_of_mem ws i hi with ⟨cd, hlw⟩
      have hwmem := lastWrite_mem ws i cd hlw
      rcases computeWrites_ok_mem (ts.map Ticket.id) logs ws hcw (i, cd) hwmem with
        ⟨l, hl, hq, hfi, dt, hdt, hcd⟩
      rcases List.findIdx?_eq_some_iff_getElem.mp hfi with ⟨hilt, hbeq, -⟩
      have hilt' : i < ts.length := by simpa using hilt
      have hgetelem : (applyWrites ts ws)[i]? =
          some ((ts.get ⟨i, hilt'⟩).setCompletion cd) := by
        rw [getElem?_applyWrites, hlw, List.getElem?_eq_getElem hilt']
        rfl
      have ht_eq : t = (ts.get ⟨i, hilt'⟩).setCompletion cd := by
        rw [← hgi]
        show (applyWrites ts ws).getD i default = _
        rw [List.getD_eq_getElem?_getD, hgetelem]
        rfl
      constructor
      · rw [← hts, ht_eq]
        exact List.getElem?_mem hgetelem
      · refine ⟨l, hl, hq, ?_, dt, hdt, ?_⟩
        · have hid : Ticket.id (ts.get ⟨i, hilt'⟩) = l.auditable_id := by simpa using hbeq
          rw [ht_eq, setCompletion_id]
          exact hid.symm
        · rw [ht_eq]
          show some cd = some (strftimeHuman dt)
          exact congrArg some hcd
  · decide

/-- Witness for C5: the general conjunct applied at the spec's scenario. -/
theorem get_recent_done_completion_annotation_witness :
    get_recent_done_tickets [log59] [t58, t59] = .ok ([t58, t59done], [t59done]) ∧
    ∀ t ∈ [t59done], t ∈ [t58, t59done] ∧
      ∃ l ∈ [log59], qualifiesDone l = true ∧ l.auditable_id = t.id ∧
        ∃ dt, strptimeIso l.created_at = some dt ∧
          t.completion_date = some (strftimeHuman dt) :=
  ⟨by decide,
    get_recent_done_completion_annotation.1 [log59] [t58, t59] [t58, t59done] [t59done]
      (by decide)⟩

/-- C7: when every qualifying entry of the log list references the same ticket
id, present in the store at index `i`, the output has one element per
qualifying entry (no deduplication), every output element is the same shared
ticket object (the final store entry at `i`), and that object's
`completion_date` is the formatted timestamp of the last qualifying entry in
input order (last write wins on the mutated field while all list entries are
retained). -/
theorem get_recent_done_duplicate_entries (logs : List AuditLog) (ts ts' out : List Ticket)
    (x : Int) (i : Nat)
    (h : get_recent_done_tickets logs ts = .ok (ts', out))
    (hall : ∀ l ∈ logs, qualifiesDone l = true → l.auditable_id = x)
    (hfind : ts.findIdx? (fun t => t.id == x) = some i) :
    out.length = (logs.filter qualifiesDone).length ∧
    (∀ t ∈ out, ts'[i]? = some t) ∧
    ∀ l, (logs.filter qualifiesDone).getLast? = some l →
      ∃ dt, strptimeIso l.created_at = some dt ∧
        ∃ t, ts'[i]? = some t ∧ t.completion_date = some (strftimeHuman dt) := by
  rw [get_recent_done_eq] at h
  cases hcw : computeWrites logs (ts.map Ticket.id) with
  | error e => rw [hcw] at h; simp at h
  | ok ws =>
    rw [hcw] at h
    simp only [Except.ok.injEq, Prod.mk.injEq] at h
    rcases h with ⟨hts, hout⟩
    have hfind2 : (ts.map Ticket.id).findIdx? (fun v => v == x) = some i := by
      rw [findIdx?_map_id]
      exact hfind
    have hws := computeWrites_const (ts.map Ticket.id) x i hfind2 logs ws hall hcw
    have hilt : i < ts.length := by
      rcases List.findIdx?_eq_some_iff_getElem.mp hfind with ⟨hl, -, -⟩
      exact hl
    have hfst : ws.map Prod.fst = List.replicate (logs.filter qualifiesDone).length i := by
      rw [hws, List.map_map]
      show (logs.filter qualifiesDone).map (fun _ => i) = _
      exact List.map_const' _ i
    have hout' : out = List.replicate (logs.filter qualifiesDone).length
        ((applyWrites ts ws).getD i default) := by
      rw [← hout, hfst, List.map_replicate]
    have hts'i : ts'[i]? = some ((applyWrites ts ws).getD i default) := by
      rw [← hts]
      have hlen : i < (applyWrites ts ws).length := by
        rw [applyWrites_length]
        exact hilt
      rw [List.getD_eq_getElem?_getD, List.getElem?_eq_getElem hlen]
      rfl
    refine ⟨?_, ?_, ?_⟩
    · rw [hout']
      exact List.length_replicate _ _
    · intro t ht
      rw [hout'] at ht
      rcases List.mem_replicate.mp ht with ⟨-, rfl⟩
      exact hts'i
    · intro l hlast
      have hlmem : l ∈ logs.filter qualifiesDone := List.mem_of_getLast?_eq_some hlast
      rcases List.mem_filter.mp hlmem with ⟨hlin, hlq⟩
      have hm : ((ts.map Ticket.id).findIdx? fun v => v == l.auditable_id).isSome := by
        rw [hall l hlin hlq, hfind2]
        rfl
      rcases computeWrites_ok_parses (ts.map Ticket.id) logs ws hcw l hlin hlq hm with ⟨dt, hdt⟩
      refine ⟨dt, hdt, ?_⟩
      have hallfst : ∀ w ∈ ws, w.1 = i := by
        intro w hw
        rw [hws] at hw
        rcases List.mem_map.mp hw with ⟨l2, -, rfl⟩
        rfl
      have hlw : lastWrite ws i = some (fmtOf l) := by
        rw [lastWrite_const ws i hallfst, hws, List.map_map]
        show ((logs.filter qualifiesDone).map (fun u => fmtOf u)).getLast? = some (fmtOf l)
        rw [List.getLast?_map, hlast]
        rfl
      have hstore : (applyWrites ts ws)[i]? =
          some ((ts.get ⟨i, hilt⟩).setCompletion (fmtOf l)) := by
        rw [getElem?_applyWrites, hlw, List.getElem?_eq_getElem hilt]
        rfl
      refine ⟨(ts.get ⟨i, hilt⟩).setCompletion (fmtOf l), ?_, ?_⟩
      · rw [hts'i]
        congr 1
        rw [List.getD_eq_getElem?_getD, hstore]
        rfl
      · show some (fmtOf l) = some (strftimeHuman dt)
        have hf : fmtOf l = strftimeHuman dt := by
          unfold fmtOf
          rw [hdt]
        rw [hf]

/-- Witness for C7 at two identical qualifying entries for ticket 59. -/
theorem get_recent_done_duplicate_entries_witness :
    get_recent_done_tickets [log59, log59] [t58, t59] =
        .ok ([t58, t59done], [t59done, t59done]) ∧
    (∀ l ∈ [log59, log59], qualifiesDone l = true → l.auditable_id = 59) ∧
    [t58, t59].findIdx? (fun t => t.id == 59) = some 1 ∧
    ([t59done, t59done].length = ([log59, log59].filter qualifiesDone).length ∧
      (∀ t ∈ [t59done, t59done], [t58, t59done][1]? = some t) ∧
      ∀ l, ([log59, log59].filter qualifiesDone).getLast? = some l →
        ∃ dt, strptimeIso l.created_at = some dt ∧
          ∃ t, [t58, t59done][1]? = some t ∧
            t.completion_date = some (strftimeHuman dt)) :=
  ⟨by decide, by decide, by decide,
    get_recent_done_duplicate_entries [log59, log59] [t58, t59] [t58, t59done]
      [t59done, t59done] 59 1 (by decide) (by decide) (by decide)⟩

/-- C9: reconciliation is idempotent.  A second run receives the same log list
and the very ticket store the first run mutated; it recomputes the same
formatted completion dates (they depend only on each entry's `created_at`),
writes them again to the same tickets, and returns the same store and the same
output list in the same order. -/
theorem get_recent_done_idempotent (logs : List AuditLog) (ts ts' out : List Ticket)
    (h : get_recent_done_tickets logs ts = .ok (ts', out)) :
    get_recent_done_tickets logs ts' = .ok (ts', out) := by
  rw [get_recent_done_eq] at h
  cases hcw : computeWrites logs (ts.map Ticket.id) with
  | error e => rw [hcw] at h; simp at h
  | ok ws =>
    rw [hcw] at h
    simp only [Except.ok.injEq, Prod.mk.injEq] at h
    rcases h with ⟨hts, hout⟩
    have hid : ts'.map Ticket.id = ts.map Ticket.id := by
      rw [← hts, applyWrites_map_id]
    have happ : applyWrites ts' ws = ts' := by
      rw [← hts, applyWrites_idem]
    rw [get_recent_done_eq, hid]
    simp only [hcw]
    rw [happ, ← hout, hts]

/-- Witness for C9 at the spec's scenario run. -/
theorem get_recent_done_idempotent_witness :
    get_recent_done_tickets [log59] [t58, t59] = .ok ([t58, t59done], [t59done]) ∧
    get_recent_done_tickets [log59] [t58, t59done] = .ok ([t58, t59done], [t59done]) :=
  ⟨by decide,
    get_recent_done_idempotent [log59] [t58, t59] [t58, t59done] [t59done] (by decide)⟩
